import Mathlib

/-!
Verification of the Lucky for Life draw-statistics and walk-forward
backtesting engine (`lucky_for_life_analyzer.py`).

The analyzer stores the draw history most-recent-first: index 0 is the
newest draw.  Each draw row has five main-number columns and one lucky-ball
column.  Statistical tables are Python `Counter`/`dict` objects whose
iteration order is insertion order, i.e. order of first occurrence; sorting
with `sorted`/`most_common` is stable, which we model with Mathlib's stable
`List.insertionSort`.

One subtlety of the source is modelled explicitly: the backtest hands the
temporary analyzer the pandas slice `self.df.iloc[idx+1:]` *without*
resetting the index, so `gap_analysis` sees the absolute labels
`idx+1, idx+2, ...` of the full frame.  All index-dependent computations
therefore take an `offset` argument (`0` for the top-level analyzer,
`idx+1` inside the backtest loop).
-/

/-- One drawing row: a date key, the five main-number columns
`Number 1` .. `Number 5` (range 1-48 when well-formed) and the
`Lucky Ball` column (range 1-18 when well-formed). -/
structure Draw where
  date : ℕ
  num1 : ℕ
  num2 : ℕ
  num3 : ℕ
  num4 : ℕ
  num5 : ℕ
  luckyBall : ℕ
deriving DecidableEq

instance : Inhabited Draw := ⟨⟨0, 0, 0, 0, 0, 0, 0⟩⟩

/-- The five main numbers of a draw, in column order. -/
def Draw.mains (d : Draw) : List ℕ :=
  [d.num1, d.num2, d.num3, d.num4, d.num5]

/-- A draw record is well-formed when its five main numbers are pairwise
distinct and in 1..48 and its lucky ball is in 1..18 (the data-integrity
invariants checked by `test_no_duplicate_numbers` / `test_numbers_in_range`). -/
def Draw.WellFormed (d : Draw) : Prop :=
  d.mains.Nodup ∧ (∀ n ∈ d.mains, 1 ≤ n ∧ n ≤ 48) ∧
    1 ≤ d.luckyBall ∧ d.luckyBall ≤ 18

instance (d : Draw) : Decidable d.WellFormed := by
  unfold Draw.WellFormed; infer_instance

/-- All main-number occurrences of a history, draw by draw and column by
column: exactly the order in which `frequency_analysis` feeds its
`Counter`. -/
def mainOccs : List Draw → List ℕ
  | [] => []
  | d :: t => d.mains ++ mainOccs t

/-- All lucky-ball occurrences of a history, draw by draw. -/
def luckyOccs : List Draw → List ℕ
  | [] => []
  | d :: t => d.luckyBall :: luckyOccs t

/-- Keys of a Python `Counter`/`dict` built over the occurrence list:
first-occurrence (insertion) order, without duplicates. -/
def insKeysAux (acc : List ℕ) : List ℕ → List ℕ
  | [] => acc
  | a :: l => insKeysAux (if a ∈ acc then acc else acc ++ [a]) l

/-- `insKeys l` is the key list of `Counter(l)` in insertion order. -/
def insKeys (l : List ℕ) : List ℕ := insKeysAux [] l

theorem mem_insKeysAux (l : List ℕ) : ∀ (acc : List ℕ) (x : ℕ),
    x ∈ insKeysAux acc l ↔ x ∈ acc ∨ x ∈ l := by
  induction l with
  | nil => intro acc x; simp [insKeysAux]
  | cons a t ih =>
    intro acc x
    by_cases ha : a ∈ acc
    · simp only [insKeysAux, if_pos ha, ih]
      constructor
      · rintro (h | h)
        · exact Or.inl h
        · exact Or.inr (List.mem_cons_of_mem _ h)
      · rintro (h | h)
        · exact Or.inl h
        · rcases List.mem_cons.mp h with rfl | h
          · exact Or.inl ha
          · exact Or.inr h
    · simp only [insKeysAux, if_neg ha, ih, List.mem_append,
        List.mem_singleton, List.mem_cons]
      tauto

theorem mem_insKeys (l : List ℕ) (x : ℕ) : x ∈ insKeys l ↔ x ∈ l := by
  simp [insKeys, mem_insKeysAux]

theorem insKeysAux_nodup (l : List ℕ) : ∀ acc : List ℕ, acc.Nodup →
    (insKeysAux acc l).Nodup := by
  induction l with
  | nil => intro acc h; simpa [insKeysAux] using h
  | cons a t ih =>
    intro acc h
    by_cases ha : a ∈ acc
    · simpa [insKeysAux, if_pos ha] using ih acc h
    · have hacc : (acc ++ [a]).Nodup := by simp [List.nodup_append, h, ha]
      simpa [insKeysAux, if_neg ha] using ih (acc ++ [a]) hacc

theorem insKeys_nodup (l : List ℕ) : (insKeys l).Nodup :=
  insKeysAux_nodup l [] List.nodup_nil

/-- `frequency_analysis`: the two `Counter`s as association lists in
insertion order, `(number, count)` for main numbers and lucky balls. -/
def frequencyAnalysis (h : List Draw) : List (ℕ × ℕ) × List (ℕ × ℕ) :=
  ((insKeys (mainOccs h)).map (fun n => (n, (mainOccs h).count n)),
   (insKeys (luckyOccs h)).map (fun n => (n, (luckyOccs h).count n)))

/-- `recent_analysis(last_n_draws)`: the same counters over the
`last_n_draws` most recent draws (`self.df.head(last_n_draws)`). -/
def recentAnalysis (h : List Draw) (lastN : ℕ) : List (ℕ × ℕ) × List (ℕ × ℕ) :=
  frequencyAnalysis (h.take lastN)

/-- The ascending list of positions (0 = most recent) of the draws whose
main numbers contain `n`. -/
def occPositions (h : List Draw) (n : ℕ) : List ℕ :=
  (h.enum.filter (fun p => decide (n ∈ p.2.mains))).map Prod.fst

/-- Differences between successive elements: the gap list that
`gap_analysis` accumulates for one number (pandas labels are consecutive,
so label differences equal position differences). -/
def pairDiffs : List ℕ → List ℕ
  | [] => []
  | [_] => []
  | a :: b :: t => (b - a) :: pairDiffs (b :: t)

/-- The gap list of main number `n` over the history. -/
def gapsOf (h : List Draw) (n : ℕ) : List ℕ := pairDiffs (occPositions h n)

/-- `np.mean` of the gap list, as an exact rational (0 when the list is
empty; the callers only use it when `n` recurred, mirroring the fact that
`avg_gaps` has a key only for recurring numbers). -/
def avgGap (h : List Draw) (n : ℕ) : ℚ :=
  ((gapsOf h n).sum : ℚ) / ((gapsOf h n).length : ℚ)

/-- The final value of `last_seen[n]` relative to the slice: the loop
overwrites `last_seen[n]` at every occurrence while iterating from the most
recent draw down, so it ends at the *largest* position at which `n`
occurs. -/
def lastSeenPos (h : List Draw) (n : ℕ) : Option ℕ := (occPositions h n).getLast?

/-- `abs(current_gap[n])` as computed with pandas labels starting at
`offset`: `abs(0 - last_seen[n]) = offset + position`, and `len(df)` for a
number that never occurs in the slice. -/
def currentGapAbs (h : List Draw) (offset : ℕ) (n : ℕ) : ℕ :=
  match lastSeenPos h n with
  | some p => offset + p
  | none => h.length

/-- The occurrence events that append to `gaps[num]`: every occurrence of a
main number that was already seen earlier in the pass.  `insKeys` of this
list is the key order of the `gaps`/`avg_gaps` dicts. -/
def dupEventsAux (seen : List ℕ) : List ℕ → List ℕ
  | [] => []
  | a :: t => if a ∈ seen then a :: dupEventsAux seen t else dupEventsAux (a :: seen) t

/-- Occurrence list restricted to repeat occurrences, in pass order. -/
def dupEvents (l : List ℕ) : List ℕ := dupEventsAux [] l

/-- `gap_analysis` with pandas labels starting at `offset`: the
`avg_gaps` dict (recurring numbers only, keyed in first-recurrence order)
and the `current_gap` dict over the full main range 1..48, whose raw values
are `0 - last_seen[n]` (a non-positive label negation) or `len(df)` for
never-seen numbers. -/
def gapAnalysis (h : List Draw) (offset : ℕ) : List (ℕ × ℚ) × List (ℕ × ℤ) :=
  ((insKeys (dupEvents (mainOccs h))).map (fun n => (n, avgGap h n)),
   (List.range' 1 48).map (fun n =>
     (n, match lastSeenPos h n with
         | some p => -((offset : ℤ) + p)
         | none => (h.length : ℤ))))

/-- Banker's rounding (Python `round`): round to the nearest integer,
ties to the even neighbour. -/
def roundHalfEven (q : ℚ) : ℤ :=
  if q - ⌊q⌋ < 1 / 2 then ⌊q⌋
  else if 1 / 2 < q - ⌊q⌋ then ⌊q⌋ + 1
  else if ⌊q⌋ % 2 = 0 then ⌊q⌋ else ⌊q⌋ + 1

/-- Python `round(q, d)`. -/
def roundTo (q : ℚ) (d : ℕ) : ℚ :=
  (roundHalfEven (q * (10 : ℚ) ^ d) : ℚ) / (10 : ℚ) ^ d

/-- One entry of the `get_overdue_numbers` result dict. -/
structure OverdueEntry where
  current_gap : ℕ
  avg_gap : ℚ
  ratioVal : ℚ
deriving DecidableEq

/-- The entry stored for an overdue number: the absolute current gap, the
average gap rounded to 1 decimal and the `current / avg` ratio rounded to 2
decimals. -/
def overdueEntry (h : List Draw) (offset : ℕ) (n : ℕ) : OverdueEntry :=
  { current_gap := currentGapAbs h offset n
    avg_gap := roundTo (avgGap h n) 1
    ratioVal := roundTo ((currentGapAbs h offset n : ℚ) / avgGap h n) 2 }

/-- `get_overdue_numbers(threshold_multiplier)`: iterate the full main
range 1..48 in order; keep `n` when it has an average gap (i.e. it
occurred at least twice, so `n in avg_gaps`) and
`abs(current_gap) > avg * threshold`. -/
def getOverdueNumbers (h : List Draw) (offset : ℕ) (t : ℚ) :
    List (ℕ × OverdueEntry) :=
  (List.range' 1 48).filterMap (fun n =>
    if 2 ≤ (occPositions h n).length ∧
        avgGap h n * t < (currentGapAbs h offset n : ℚ) then
      some (n, overdueEntry h offset n)
    else none)

/-- `sorted(overdue.items(), key=ratio, reverse=True)`: stable descending
sort on the stored (rounded) ratio. -/
def overdueSorted (h : List Draw) (offset : ℕ) (t : ℚ) :
    List (ℕ × OverdueEntry) :=
  List.insertionSort (fun a b => b.2.ratioVal ≤ a.2.ratioVal)
    (getOverdueNumbers h offset t)

/-- `Counter.most_common` order for an occurrence list: the keys in
insertion order, stably sorted by descending count (Python's sort is
stable, so ties keep insertion order). -/
def sortDescCnt (l : List ℕ) : List ℕ :=
  List.insertionSort (fun a b => l.count b ≤ l.count a) (insKeys l)

/-- `sorted(counter.items(), key=count)` order: keys stably sorted by
ascending count. -/
def sortAscCnt (l : List ℕ) : List ℕ :=
  List.insertionSort (fun a b => l.count a ≤ l.count b) (insKeys l)

/-- Python `max(items, key=f)` over keys in iteration order: the first
element attaining the maximum (later elements replace the champion only
when strictly greater); `none` on an empty list (`ValueError`). -/
def argmaxFirst (l : List ℕ) (f : ℕ → ℕ) : Option ℕ :=
  l.foldl (fun best a =>
    match best with
    | none => some a
    | some b => if f b < f a then some a else some b) none

/-- Ascending positions of the draws whose lucky ball equals `lb`. -/
def luckyPositions (h : List Draw) (lb : ℕ) : List ℕ :=
  (h.enum.filter (fun p => decide (p.2.luckyBall = lb))).map Prod.fst

/-- `_get_overdue_lucky_ball`: record the first label at which each lucky
ball appears (the dict keeps only the first assignment), then take the ball
whose recorded label has the largest absolute value, first one winning
ties.  Labels start at `offset`. -/
def overdueLuckyBall (h : List Draw) (offset : ℕ) : Option ℕ :=
  argmaxFirst (insKeys (luckyOccs h))
    (fun lb => offset + (luckyPositions h lb).headD 0)

/-- A recommendation: the `main_numbers` list and the single lucky ball
(the source stores the ball as a one-element list; every branch that
returns builds exactly one ball). -/
structure Rec where
  mains : List ℕ
  lucky : ℕ
deriving DecidableEq

/-- `generate_recommendations(strategy)` for an analyzer whose frame labels
start at `offset` (`0` for the top-level analyzer, `idx+1` for the
backtest's temporary analyzer).  `none` models the `IndexError` /
`ValueError` the source raises when an indexed lookup or `max` runs dry;
an unrecognized strategy falls through to the `balanced` branch. -/
def genRec (h : List Draw) (offset : ℕ) (s : String) : Option Rec :=
  if s = "hot" then
    (sortDescCnt (luckyOccs h)).head?.map (fun lb =>
      { mains := ((sortDescCnt (mainOccs h)).take 10).take 5, lucky := lb })
  else if s = "cold" then
    (sortAscCnt (luckyOccs h)).head?.map (fun lb =>
      { mains := ((sortAscCnt (mainOccs h)).take 10).take 5, lucky := lb })
  else if s = "overdue" then
    (overdueLuckyBall h offset).map (fun lb =>
      { mains := ((overdueSorted h offset (3 / 2)).take 5).map Prod.fst
        lucky := lb })
  else if s = "recent_hot" then
    (sortDescCnt (luckyOccs (h.take 50))).head?.map (fun lb =>
      { mains := ((sortDescCnt (mainOccs (h.take 50))).take 10).take 5
        lucky := lb })
  else if s = "jackpot_spread" then
    match
      argmaxFirst ((List.range' 1 12).filter (fun n => (mainOccs h).contains n))
        (fun n => (mainOccs h).count n),
      argmaxFirst ((List.range' 13 12).filter (fun n => (mainOccs h).contains n))
        (fun n => (mainOccs h).count n),
      argmaxFirst ((List.range' 25 12).filter (fun n => (mainOccs h).contains n))
        (fun n => (mainOccs h).count n),
      argmaxFirst ((List.range' 37 12).filter (fun n => (mainOccs h).contains n))
        (fun n => (mainOccs h).count n),
      (sortDescCnt (luckyOccs h)).head? with
    | some a, some b, some c, some d, some lb =>
      let sel : List ℕ := [a, b, c, d]
      let sel5 : List ℕ :=
        match ((sortDescCnt (mainOccs (h.take 50))).take 20).find?
            (fun n => !sel.contains n) with
        | some n => sel ++ [n]
        | none => sel
      some { mains := List.insertionSort (fun a b => a ≤ b) (sel5.take 5)
             lucky := lb }
    | _, _, _, _, _ => none
  else
    (((sortDescCnt (luckyOccs h)).take 3).get? 1).map (fun lb =>
      let hotNums := (sortDescCnt (mainOccs h)).take 15
      let overdueNums := ((overdueSorted h offset (3 / 2)).take 10).map Prod.fst
      let recentNums := (sortDescCnt (mainOccs (h.take 50))).take 10
      let sel0 : List ℕ := []
      let sel1 := sel0 ++ (hotNums.filter (fun n => !sel0.contains n)).take 2
      let sel2 := sel1 ++ (overdueNums.filter (fun n => !sel1.contains n)).take 2
      let sel3 := sel2 ++ (recentNums.filter (fun n => !sel2.contains n)).take 1
      { mains := sel3.take 5, lucky := lb })

/-- The prize cascade of `check_ticket` (live checking): dollar amount and
tier description as a function of the main-match count and lucky match.
The two life-annuity tiers carry no fixed dollar amount (prize 0.00). -/
def checkPrize (m : ℕ) (lm : Bool) : ℕ × String :=
  if m = 5 ∧ lm then (0, "JACKPOT! $1,000/Day for Life")
  else if m = 5 then (0, "2nd Prize! $25,000/Year for Life")
  else if m = 4 ∧ lm then (5000, "$5,000")
  else if m = 4 then (200, "$200")
  else if m = 3 ∧ lm then (150, "$150")
  else if m = 3 then (20, "$20")
  else if m = 2 ∧ lm then (25, "$25")
  else if m = 2 then (3, "$3")
  else if m = 1 ∧ lm then (6, "$6")
  else if lm then (4, "$4")
  else (0, "No win")

/-- `len(set(numbers) & set(winning_numbers))`: the number of distinct
values common to both lists. -/
def mainMatches (ticket winning : List ℕ) : ℕ :=
  ((insKeys ticket).filter (fun n => decide (n ∈ winning))).length

/-- The result record assembled by `check_ticket` on a found drawing. -/
structure TicketResult where
  main_matches : ℕ
  lucky_match : Bool
  prize : ℕ
  prize_description : String
  winning_numbers : List ℕ
  winning_lucky : ℕ
  your_numbers : List ℕ
  your_lucky : ℕ
deriving DecidableEq

/-- `check_ticket(numbers, lucky_ball, drawing_date)`: look up the first
draw with the requested date; `(None, "Drawing date not found")` when the
date matches no draw, otherwise `(result, None)`.  Pure: the source only
reads `self.df`. -/
def checkTicket (h : List Draw) (numbers : List ℕ) (lucky : ℕ) (date : ℕ) :
    Option TicketResult × Option String :=
  match h.find? (fun d => d.date == date) with
  | none => (none, some "Drawing date not found")
  | some d =>
    let m := mainMatches numbers d.mains
    let lm := lucky == d.luckyBall
    (some { main_matches := m
            lucky_match := lm
            prize := (checkPrize m lm).1
            prize_description := (checkPrize m lm).2
            winning_numbers := d.mains
            winning_lucky := d.luckyBall
            your_numbers := numbers
            your_lucky := lucky }, none)

/-- The backtest-only prize cascade: identical to the live cascade except
that 5+LB is approximated at $1,000,000 and 5 alone at $25,000. -/
def backtestPrize (m : ℕ) (lm : Bool) : ℕ :=
  if m = 5 ∧ lm then 1000000
  else if m = 5 then 25000
  else if m = 4 ∧ lm then 5000
  else if m = 4 then 200
  else if m = 3 ∧ lm then 150
  else if m = 3 then 20
  else if m = 2 ∧ lm then 25
  else if m = 2 then 3
  else if m = 1 ∧ lm then 6
  else if lm then 4
  else 0

/-- One reported entry of `generate_multiple_sets`. -/
structure SetInfo where
  set_number : ℕ
  strategy : String
  numbers : List ℕ
  lucky_ball : ℕ
deriving DecidableEq

/-- The enumerated loop body of `generate_multiple_sets`: the reported
`numbers` field is `sorted(rec['main_numbers'])`.  `none` when a
recommendation raises. -/
def genSetsAux (h : List Draw) : ℕ → List String → Option (List SetInfo)
  | _, [] => some []
  | i, s :: rest =>
    match genRec h 0 s with
    | none => none
    | some r =>
      match genSetsAux h (i + 1) rest with
      | none => none
      | some out =>
        some ({ set_number := i + 1
                strategy := s
                numbers := List.insertionSort (fun a b => a ≤ b) r.mains
                lucky_ball := r.lucky } :: out)

/-- `generate_multiple_sets(num_sets, strategies)`: one reported set per
strategy in `strategies[:num_sets]`, numbered from 1. -/
def genMultipleSets (h : List Draw) (numSets : ℕ) (strategies : List String) :
    Option (List SetInfo) :=
  genSetsAux h 0 (strategies.take numSets)

/-- Per-strategy accumulator of `backtest_strategies`. -/
structure StrategyResult where
  wins : ℕ
  total_prize : ℕ
  tickets : ℕ
  matches_dist : ℕ → ℕ

/-- The zero accumulator every strategy starts from. -/
def initResult : StrategyResult := ⟨0, 0, 0, fun _ => 0⟩

/-- The recommendation the backtest computes for draw index `i`: the
temporary analyzer holds the strict suffix `self.df.iloc[i+1:]` *with its
original pandas labels*, so the gap computations run with label offset
`i+1`. -/
def backtestRecAt (h : List Draw) (i : ℕ) (s : String) : Option Rec :=
  genRec (h.drop (i + 1)) (i + 1) s

/-- The inner `for strategy in strategies` loop at backtest index `idx`
scoring against `target`: each strategy's accumulator gets one ticket, the
backtest prize, the match-distribution bump and a win when the prize is
positive.  `none` when a recommendation raises, aborting the backtest. -/
def stepStrategies (h : List Draw) (idx : ℕ) (target : Draw) :
    List String → (String → StrategyResult) → Option (String → StrategyResult)
  | [], res => some res
  | s :: rest, res =>
    match backtestRecAt h idx s with
    | none => none
    | some r =>
      let m := mainMatches r.mains target.mains
      let lm := r.lucky == target.luckyBall
      let p := backtestPrize m lm
      let old := res s
      let upd : StrategyResult :=
        { wins := old.wins + (if 0 < p then 1 else 0)
          total_prize := old.total_prize + p
          tickets := old.tickets + 1
          matches_dist := fun k =>
            if k = m then old.matches_dist k + 1 else old.matches_dist k }
      stepStrategies h idx target rest (fun x => if x = s then upd else res x)

/-- The outer loop of `backtest_strategies` over the simulated indices:
an index whose available suffix holds fewer than 50 draws is skipped
(`continue`), touching no accumulator. -/
def backtestLoop (h : List Draw) (strats : List String) :
    List ℕ → (String → StrategyResult) → Option (String → StrategyResult)
  | [], res => some res
  | idx :: rest, res =>
    if (h.drop (idx + 1)).length < 50 then backtestLoop h strats rest res
    else
      match stepStrategies h idx (h.getD idx default) strats res with
      | none => none
      | some res1 => backtestLoop h strats rest res1

/-- `backtest_strategies(lookback_draws, strategies)`: simulate the indices
`range(len(self.df.head(lookback_draws)))`, i.e. `0 .. min lookback n - 1`,
accumulating per-strategy results. -/
def backtestStrategies (h : List Draw) (lookback : ℕ) (strats : List String) :
    Option (String → StrategyResult) :=
  backtestLoop h strats (List.range (min lookback h.length)) (fun _ => initResult)

/-- The three-draw example history of the spec and the test fixture:
01/21 {3,10,22,32,38}+11, 01/20 {6,9,28,41,45}+8, 01/19 {5,17,22,42,48}+16,
most recent first, dates encoded as mmdd. -/
def hEx : List Draw :=
  [⟨121, 3, 10, 22, 32, 38, 11⟩,
   ⟨120, 6, 9, 28, 41, 45, 8⟩,
   ⟨119, 5, 17, 22, 42, 48, 16⟩]

/-- A well-formed single-draw history. -/
def hOne : List Draw := [⟨0, 1, 2, 3, 4, 5, 7⟩]

/-- A four-draw history in which the number 7 occurs in the three most
recent draws only: its gaps are `[1, 1]` (average 1) and its final
`last_seen` position is 2, so `2 > 1 * 1.5` makes it overdue. -/
def h4 : List Draw :=
  [⟨0, 7, 1, 2, 3, 4, 5⟩,
   ⟨1, 7, 9, 10, 11, 12, 5⟩,
   ⟨2, 7, 13, 14, 15, 16, 5⟩,
   ⟨3, 20, 21, 22, 23, 24, 5⟩]

/-- The varying fifth main number of the crafted backtest suffix: the
number 5 occurs at positions 0 and 2 (average gap 2, oldest position 2 —
overdue exactly when the label offset exceeds 1); six numbers occur twice
far apart (never overdue at small offsets); the rest occur once. -/
def xval (p : ℕ) : ℕ :=
  if p = 0 then 5 else if p = 2 then 5
  else if p = 1 then 6 else if p = 45 then 6
  else if p = 3 then 7 else if p = 46 then 7
  else if p = 4 then 8 else if p = 47 then 8
  else if p = 6 then 9 else if p = 48 then 9
  else if p = 7 then 10 else if p = 49 then 10
  else if p = 8 then 11 else if p = 50 then 11
  else if p = 5 then 12
  else p + 4

/-- Draw `p` of the crafted suffix: mains `{1,2,3,4, xval p}`, lucky 1. -/
def sDraw (p : ℕ) : Draw := ⟨100 + p, 1, 2, 3, 4, xval p, 1⟩

/-- A 51-draw suffix in which 1,2,3,4 appear in every draw (hugely
overdue under the source's oldest-position current gap) and 5 is overdue
only when the label offset is at least 2. -/
def suffixS : List Draw := (List.range 51).map sDraw

/-- 53-draw full history: two filler draws in front of `suffixS`. -/
def h53 : List Draw :=
  ⟨200, 44, 45, 46, 47, 48, 2⟩ :: ⟨201, 44, 45, 46, 47, 48, 2⟩ :: suffixS

/-- `h53` with the draw at index 0 removed. -/
def h52 : List Draw := ⟨201, 44, 45, 46, 47, 48, 2⟩ :: suffixS

theorem insKeysAux_eq_append (l : List ℕ) : ∀ acc : List ℕ,
    (acc ++ l).Nodup → insKeysAux acc l = acc ++ l := by
  induction l with
  | nil => intro acc _; simp [insKeysAux]
  | cons a t ih =>
    intro acc hnd
    have ha : a ∉ acc := by
      intro hmem
      rw [List.nodup_append] at hnd
      exact hnd.2.2 hmem (List.mem_cons_self a t)
    have hre : (acc ++ [a]) ++ t = acc ++ a :: t := by simp
    have hnd2 : ((acc ++ [a]) ++ t).Nodup := by rw [hre]; exact hnd
    simp only [insKeysAux, if_neg ha]
    rw [ih (acc ++ [a]) hnd2, hre]

theorem insKeys_of_nodup (l : List ℕ) (hnd : l.Nodup) : insKeys l = l := by
  simpa [insKeys] using insKeysAux_eq_append l [] (by simpa using hnd)

theorem sum_insKeys_count (l : List ℕ) :
    ((insKeys l).map (fun n => l.count n)).sum = l.length := by
  have hperm : List.Perm (insKeys l) l.dedup :=
    (List.perm_ext_iff_of_nodup (insKeys_nodup l) l.nodup_dedup).mpr
      (fun a => by rw [mem_insKeys, List.mem_dedup])
  calc ((insKeys l).map (fun n => l.count n)).sum
      = (l.dedup.map (fun n => l.count n)).sum := (hperm.map _).sum_eq
    _ = l.length := l.sum_map_count_dedup_eq_length

theorem mainOccs_length (h : List Draw) : (mainOccs h).length = 5 * h.length := by
  induction h with
  | nil => simp [mainOccs]
  | cons d t ih => simp [mainOccs, Draw.mains, ih]; ring

theorem luckyOccs_length (h : List Draw) : (luckyOccs h).length = h.length := by
  induction h with
  | nil => simp [luckyOccs]
  | cons d t ih => simp [luckyOccs, ih]

/-- C8: over any history slice the main-number counts of
`frequency_analysis` sum to 5 times the slice length and the lucky-ball
counts sum to the slice length; `recent_analysis` obeys the same sums over
its window `h.take w`. -/
theorem c8_count_sums (h : List Draw) :
    ((frequencyAnalysis h).1.map Prod.snd).sum = 5 * h.length ∧
    ((frequencyAnalysis h).2.map Prod.snd).sum = h.length ∧
    ∀ w : ℕ,
      ((recentAnalysis h w).1.map Prod.snd).sum = 5 * (h.take w).length ∧
      ((recentAnalysis h w).2.map Prod.snd).sum = (h.take w).length := by
  have key : ∀ g : List Draw,
      ((frequencyAnalysis g).1.map Prod.snd).sum = 5 * g.length ∧
      ((frequencyAnalysis g).2.map Prod.snd).sum = g.length := by
    intro g
    constructor
    · calc ((frequencyAnalysis g).1.map Prod.snd).sum
          = ((insKeys (mainOccs g)).map (fun n => (mainOccs g).count n)).sum := by
            simp [frequencyAnalysis, List.map_map, Function.comp_def]
        _ = (mainOccs g).length := sum_insKeys_count _
        _ = 5 * g.length := mainOccs_length g
    · calc ((frequencyAnalysis g).2.map Prod.snd).sum
          = ((insKeys (luckyOccs g)).map (fun n => (luckyOccs g).count n)).sum := by
            simp [frequencyAnalysis, List.map_map, Function.comp_def]
        _ = (luckyOccs g).length := sum_insKeys_count _
        _ = g.length := luckyOccs_length g
  exact ⟨(key h).1, (key h).2, fun w => key (h.take w)⟩

/-- C7 counterexample: on the empty slice `frequency_analysis` returns the
empty counters and `gap_analysis` returns an empty average-gap table and an
all-zero current-gap table — no error of any kind is raised (the source
defines no `EmptyHistoryError`). -/
theorem c7_counterexample :
    frequencyAnalysis [] = ([], []) ∧
    gapAnalysis [] 0 = ([], (List.range' 1 48).map (fun n => (n, (0 : ℤ)))) := by
  decide

/-- C7 as amended: frequency, recent and gap computations on a zero-length
slice return empty (or zero-filled) tables instead of failing: the

empty-history outcome is a value, not an exception. -/
theorem c7_empty_tables :
    frequencyAnalysis [] = ([], []) ∧
    (∀ w : ℕ, recentAnalysis [] w = ([], [])) ∧
    (gapAnalysis [] 0).1 = [] ∧
    (∀ p ∈ (gapAnalysis [] 0).2, p.2 = 0) ∧
    getOverdueNumbers [] 0 (3 / 2) = [] := by
  refine ⟨by decide, fun w => ?_, by decide, by decide, by decide⟩
  simp [recentAnalysis]
  decide

/-- C3: the live prize cascade realizes the fixed table — 4+LB $5000,
4 $200, 3+LB $150, 3 $20, 2+LB $25, 2 $3, 1+LB $6, 0+LB $4, otherwise $0,
with the 5+LB and 5-alone tiers carrying no dollar amount — and the
backtest cascade differs from it exactly by valuing 5+LB at $1,000,000 and
5-alone at $25,000.  Both cascades are total functions of
`(main_matches, lucky_match)`. -/
theorem c3_prize_table :
    checkPrize 5 true = (0, "JACKPOT! $1,000/Day for Life") ∧
    checkPrize 5 false = (0, "2nd Prize! $25,000/Year for Life") ∧
    checkPrize 4 true = (5000, "$5,000") ∧
    checkPrize 4 false = (200, "$200") ∧
    checkPrize 3 true = (150, "$150") ∧
    checkPrize 3 false = (20, "$20") ∧
    checkPrize 2 true = (25, "$25") ∧
    checkPrize 2 false = (3, "$3") ∧
    checkPrize 1 true = (6, "$6") ∧
    checkPrize 1 false = (0, "No win") ∧
    checkPrize 0 true = (4, "$4") ∧
    checkPrize 0 false = (0, "No win") ∧
    ∀ (m : ℕ) (lm : Bool),
      backtestPrize m lm =
        if m = 5 then (if lm then 1000000 else 25000) else (checkPrize m lm).1 := by
  refine ⟨rfl, rfl, rfl, rfl, rfl, rfl, rfl, rfl, rfl, rfl, rfl, rfl, ?_⟩
  intro m lm
  match m with
  | 0 | 1 | 2 | 3 | 4 | 5 => cases lm <;> rfl
  | k + 6 =>
    have h5 : k + 6 ≠ 5 := by omega
    have h4 : k + 6 ≠ 4 := by omega
    have h3 : k + 6 ≠ 3 := by omega
    have h2 : k + 6 ≠ 2 := by omega
    have h1 : k + 6 ≠ 1 := by omega
    cases lm <;> simp [backtestPrize, checkPrize, h5, h4, h3, h2, h1]

/-- C10: `check_ticket` on a date matching no draw returns the pair
`(None, "Drawing date not found")` instead of raising, and on a matching
date returns `(result, None)`.  The embedding is a pure function of the
history, mirroring that the source only reads `self.df`. -/
theorem c10_check_ticket_result (h : List Draw) (numbers : List ℕ)
    (lucky date : ℕ) :
    (h.find? (fun d => d.date == date) = none →
      checkTicket h numbers lucky date = (none, some "Drawing date not found")) ∧
    ∀ d, h.find? (fun d => d.date == date) = some d →
      ∃ r, checkTicket h numbers lucky date = (some r, none) := by
  constructor
  · intro hn
    simp [checkTicket, hn]
  · intro d hd
    simp only [checkTicket, hd]
    exact ⟨_, rfl⟩

theorem c10_check_ticket_result_witness :
    checkTicket hEx [1, 2, 3, 4, 5] 1 999 =
      (none, some "Drawing date not found") ∧
    ∃ r, checkTicket hEx [3, 10, 22, 32, 38] 11 121 = (some r, none) :=
  ⟨(c10_check_ticket_result hEx [1, 2, 3, 4, 5] 1 999).1 rfl,
   (c10_check_ticket_result hEx [3, 10, 22, 32, 38] 11 121).2
     ⟨121, 3, 10, 22, 32, 38, 11⟩ rfl⟩

/-- C6: checking a ticket whose five distinct numbers and lucky ball equal
those of the draw found at the requested date reports 5 main matches, a
lucky match and the maximal tier "JACKPOT! $1,000/Day for Life". -/
theorem c6_roundtrip (h : List Draw) (date : ℕ) (d : Draw) (nums : List ℕ)
    (lb : ℕ) (hfind : h.find? (fun x => x.date == date) = some d)
    (hperm : List.Perm nums d.mains) (hnd : nums.Nodup)
    (hlb : lb = d.luckyBall) :
    checkTicket h nums lb date =
      (some { main_matches := 5
              lucky_match := true
              prize := 0
              prize_description := "JACKPOT! $1,000/Day for Life"
              winning_numbers := d.mains
              winning_lucky := d.luckyBall
              your_numbers := nums
              your_lucky := lb }, none) := by
  have hm : mainMatches nums d.mains = 5 := by
    unfold mainMatches
    rw [insKeys_of_nodup nums hnd,
      List.filter_eq_self.mpr (fun a ha => decide_eq_true (hperm.subset ha)),
      hperm.length_eq]
    rfl
  subst hlb
  simp only [checkTicket, hfind, hm, beq_self_eq_true]
  rfl

theorem c6_roundtrip_witness :
    checkTicket hEx [3, 10, 22, 32, 38] 11 121 =
      (some { main_matches := 5
              lucky_match := true
              prize := 0
              prize_description := "JACKPOT! $1,000/Day for Life"
              winning_numbers := [3, 10, 22, 32, 38]
              winning_lucky := 11
              your_numbers := [3, 10, 22, 32, 38]
              your_lucky := 11 }, none) :=
  c6_roundtrip hEx 121 ⟨121, 3, 10, 22, 32, 38, 11⟩ [3, 10, 22, 32, 38] 11
    rfl (by decide) (by decide) rfl

/-- C2 counterexample: on a well-formed single-draw history the `overdue`
strategy returns a recommendation with an *empty* main-number list (no
number has recurred, so the overdue dict is empty and `overdue_sorted[:5]`
is empty), contradicting "exactly 5 pairwise-distinct main numbers" for
every strategy and non-empty history. -/
theorem c2_counterexample :
    hOne.length = 1 ∧ (∀ d ∈ hOne, d.WellFormed) ∧
    genRec hOne 0 "overdue" = some { mains := [], lucky := 7 } := by
  decide

set_option maxRecDepth 10000 in
unseal Rat.mul Rat.inv Rat.add Rat.sub in
/-- C1: the backtest's per-index recommendation is *not* a function of the
strict suffix alone.  `h53.drop 2 = h52.drop 1` (the available history for
the scored draw is identical, 51 ≥ 50 draws), yet the `overdue`
recommendation differs — `[1,2,3,4,5]` at backtest index 1 of `h53` versus
`[1,2,3,4]` after the index-0 draw is removed (index 0 of `h52`) — because
`gap_analysis` reads the suffix's absolute pandas labels, so current gaps
carry the numeric cutoff `i+1` and the number 5 stops being overdue when
the offset drops from 2 to 1. -/
theorem c1_offset_leak :
    h53.drop 2 = h52.drop 1 ∧
    50 ≤ (h53.drop 2).length ∧
    (∀ d ∈ h53, d.WellFormed) ∧
    (backtestRecAt h53 1 "overdue").map Rec.mains = some [1, 2, 3, 4, 5] ∧
    (backtestRecAt h52 0 "overdue").map Rec.mains = some [1, 2, 3, 4] := by
  decide

theorem overdue_mem_iff (h : List Draw) (off : ℕ) (t : ℚ) (n : ℕ)
    (e : OverdueEntry) :
    (n, e) ∈ getOverdueNumbers h off t ↔
      n ∈ List.range' 1 48 ∧
      (2 ≤ (occPositions h n).length ∧
        avgGap h n * t < (currentGapAbs h off n : ℚ)) ∧
      e = overdueEntry h off n := by
  unfold getOverdueNumbers
  rw [List.mem_filterMap]
  constructor
  · rintro ⟨m, hm, hf⟩
    by_cases hc : 2 ≤ (occPositions h m).length ∧
        avgGap h m * t < (currentGapAbs h off m : ℚ)
    · rw [if_pos hc] at hf
      have hpair : m = n ∧ overdueEntry h off m = e := by
        have := Option.some.inj hf
        exact ⟨congrArg Prod.fst this, congrArg Prod.snd this⟩
      obtain ⟨rfl, he⟩ := hpair
      exact ⟨hm, hc, he.symm⟩
    · rw [if_neg hc] at hf
      exact absurd hf (by simp)
  · rintro ⟨hm, hc, rfl⟩
    exact ⟨n, hm, by rw [if_pos hc]⟩

/-- C4: a number `n` in 1..48 is in the `get_overdue_numbers` result
exactly when it has an average gap (it occurred at least twice) and its
absolute current gap — the final `last_seen` position, i.e. the oldest
occurrence position, or the history length when never seen — exceeds the
average gap times the threshold; every stored entry reports the current
gap, the average gap rounded to 1 decimal and the ratio rounded to 2
decimals. -/
theorem c4_overdue_membership (h : List Draw) (t : ℚ) (n : ℕ)
    (h1 : 1 ≤ n) (h2 : n ≤ 48) :
    ((∃ e, (n, e) ∈ getOverdueNumbers h 0 t) ↔
      2 ≤ (occPositions h n).length ∧
        avgGap h n * t < (currentGapAbs h 0 n : ℚ)) ∧
    ∀ e, (n, e) ∈ getOverdueNumbers h 0 t →
      e.current_gap = currentGapAbs h 0 n ∧
      e.avg_gap = roundTo (avgGap h n) 1 ∧
      e.ratioVal = roundTo ((currentGapAbs h 0 n : ℚ) / avgGap h n) 2 := by
  have hrange : n ∈ List.range' 1 48 := by
    rw [List.mem_range']
    exact ⟨n - 1, by omega, by omega⟩
  constructor
  · constructor
    · rintro ⟨e, he⟩
      exact ((overdue_mem_iff h 0 t n e).mp he).2.1
    · intro hc
      exact ⟨overdueEntry h 0 n, (overdue_mem_iff h 0 t n _).mpr ⟨hrange, hc, rfl⟩⟩
  · intro e he
    obtain ⟨-, -, rfl⟩ := (overdue_mem_iff h 0 t n e).mp he
    exact ⟨rfl, rfl, rfl⟩

unseal Rat.mul Rat.inv Rat.add Rat.sub in
theorem c4_overdue_membership_witness :
    ∃ e, (7, e) ∈ getOverdueNumbers h4 0 (3 / 2) :=
  (c4_overdue_membership h4 (3 / 2) 7 (by decide) (by decide)).1.mpr (by decide)

theorem genSetsAux_sorted (h : List Draw) :
    ∀ (l : List String) (i : ℕ) (out : List SetInfo),
      genSetsAux h i l = some out →
      ∀ e ∈ out, List.Sorted (fun a b => a ≤ b) e.numbers := by
  intro l
  induction l with
  | nil =>
    intro i out hout e he
    simp only [genSetsAux, Option.some.injEq] at hout
    subst hout
    simp at he
  | cons s rest ih =>
    intro i out hout e he
    unfold genSetsAux at hout
    cases hr : genRec h 0 s with
    | none => rw [hr] at hout; simp at hout
    | some r =>
      rw [hr] at hout
      cases haux : genSetsAux h (i + 1) rest with
      | none => rw [haux] at hout; simp at hout
      | some out1 =>
        rw [haux] at hout
        simp only [Option.some.injEq] at hout
        subst hout
        rcases List.mem_cons.mp he with rfl | hmem
        · exact List.sorted_insertionSort (fun a b => a ≤ b) r.mains
        · exact ih (i + 1) out1 haux e hmem

/-- C9: every set reported by `generate_multiple_sets` presents its main
numbers as `sorted(rec['main_numbers'])`, i.e. in ascending order, for
every strategy in the requested list. -/
theorem c9_reported_sorted (h : List Draw) (numSets : ℕ)
    (strategies : List String) (out : List SetInfo)
    (hout : genMultipleSets h numSets strategies = some out) :
    ∀ e ∈ out, List.Sorted (fun a b => a ≤ b) e.numbers :=
  genSetsAux_sorted h (strategies.take numSets) 0 out hout

theorem c9_reported_sorted_witness :
    List.Sorted (fun a b => a ≤ b)
      (SetInfo.numbers ⟨1, "hot", [3, 10, 22, 32, 38], 11⟩) :=
  c9_reported_sorted hEx 1 ["hot"] [⟨1, "hot", [3, 10, 22, 32, 38], 11⟩] rfl
    ⟨1, "hot", [3, 10, 22, 32, 38], 11⟩ (by simp)

theorem stepStrategies_tickets (h : List Draw) (idx : ℕ) (target : Draw) :
    ∀ (l : List String) (res res1 : String → StrategyResult),
      stepStrategies h idx target l res = some res1 →
      ∀ s, (res1 s).tickets = (res s).tickets + l.count s := by
  intro l
  induction l with
  | nil =>
    intro res res1 heq s
    simp only [stepStrategies, Option.some.injEq] at heq
    subst heq
    simp
  | cons a rest ih =>
    intro res res1 heq s
    unfold stepStrategies at heq
    cases hr : backtestRecAt h idx a with
    | none => rw [hr] at heq; simp at heq
    | some r =>
      rw [hr] at heq
      have hstep := ih _ res1 heq s
      by_cases hsa : s = a
      · subst hsa
        simp at hstep
        rw [hstep, List.count_cons_self]
        omega
      · simp [hsa] at hstep
        rw [hstep, List.count_cons_of_ne hsa]

theorem filter_length_eq_all {α : Type} (p : α → Bool) :
    ∀ l : List α, (l.filter p).length = l.length → ∀ a ∈ l, p a = true := by
  intro l
  induction l with
  | nil => intro _ a ha; simp at ha
  | cons b t ih =>
    intro hlen a ha
    by_cases hb : p b = true
    · rcases List.mem_cons.mp ha with rfl | hmem
      · exact hb
      · refine ih ?_ a hmem
        simpa [List.filter_cons, hb] using hlen
    · exfalso
      have hle := List.length_filter_le p t
      rw [List.filter_cons, if_neg (by simpa using hb)] at hlen
      simp at hlen
      omega

theorem backtestLoop_tickets (h : List Draw) (strats : List String) :
    ∀ (idxs : List ℕ) (res res1 : String → StrategyResult),
      backtestLoop h strats idxs res = some res1 →
      ∀ s, (res1 s).tickets = (res s).tickets +
        (idxs.filter (fun i => decide (50 ≤ (h.drop (i + 1)).length))).length *
          strats.count s := by
  intro idxs
  induction idxs with
  | nil =>
    intro res res1 heq s
    simp only [backtestLoop, Option.some.injEq] at heq
    subst heq
    simp
  | cons i rest ih =>
    intro res res1 heq s
    unfold backtestLoop at heq
    by_cases hg : (h.drop (i + 1)).length < 50
    · rw [if_pos hg] at heq
      have hskip : decide (50 ≤ (h.drop (i + 1)).length) = false :=
        decide_eq_false (by omega)
      rw [List.filter_cons, hskip]
      simpa using ih res res1 heq s
    · rw [if_neg hg] at heq
      cases hs : stepStrategies h i (h.getD i default) strats res with
      | none => rw [hs] at heq; simp at heq
      | some res2 =>
        rw [hs] at heq
        have h1 := stepStrategies_tickets h i (h.getD i default) strats res res2 hs s
        have h2 := ih res2 res1 heq s
        have hkeep : decide (50 ≤ (h.drop (i + 1)).length) = true :=
          decide_eq_true (by omega)
        rw [List.filter_cons, hkeep]
        simp only [if_true]
        rw [h2, h1, List.length_cons]
        ring

/-- C5: when the configured strategies are distinct, every strategy's
`tickets_played` is at most `lookback_draws` — an index whose available
suffix holds fewer than 50 draws is skipped and counts no ticket — and
`tickets_played` can equal `lookback_draws` only when every simulated
index met the 50-draw minimum-history floor. -/
theorem c5_tickets_bound (h : List Draw) (lookback : ℕ)
    (strategies : List String) (s : String) (hnd : strategies.Nodup)
    (hmem : s ∈ strategies) (res : String → StrategyResult)
    (heq : backtestStrategies h lookback strategies = some res) :
    (res s).tickets ≤ lookback ∧
      ((res s).tickets = lookback →
        ∀ i < min lookback h.length, 50 ≤ (h.drop (i + 1)).length) := by
  have hcount : strategies.count s = 1 := List.count_eq_one_of_mem hnd hmem
  have hloop := backtestLoop_tickets h strategies
    (List.range (min lookback h.length)) (fun _ => initResult) res heq s
  rw [hcount, Nat.mul_one] at hloop
  simp only [initResult, Nat.zero_add] at hloop
  have hle : ((List.range (min lookback h.length)).filter
      (fun i => decide (50 ≤ (h.drop (i + 1)).length))).length ≤
      min lookback h.length := by
    have := List.length_filter_le
      (fun i => decide (50 ≤ (h.drop (i + 1)).length))
      (List.range (min lookback h.length))
    simpa [List.length_range] using this
  constructor
  · rw [hloop]
    exact hle.trans (Nat.min_le_left _ _)
  · intro htick i hi
    rw [hloop] at htick
    have hall : ((List.range (min lookback h.length)).filter
        (fun i => decide (50 ≤ (h.drop (i + 1)).length))).length =
        (List.range (min lookback h.length)).length := by
      rw [List.length_range]
      have := Nat.min_le_left lookback h.length
      omega
    have := filter_length_eq_all _ _ hall i (List.mem_range.mpr hi)
    exact of_decide_eq_true this

theorem c5_tickets_bound_witness :
    ∃ res, backtestStrategies hEx 2 ["hot"] = some res ∧
      (res "hot").tickets ≤ 2 :=
  ⟨fun _ => initResult, rfl,
    (c5_tickets_bound hEx 2 ["hot"] "hot" (by simp) (by simp)
      (fun _ => initResult) rfl).1⟩

theorem mainOccs_bounds (h : List Draw) (hwf : ∀ d ∈ h, d.WellFormed) :
    ∀ x ∈ mainOccs h, 1 ≤ x ∧ x ≤ 48 := by
  induction h with
  | nil => intro x hx; simp [mainOccs] at hx
  | cons d t ih =>
    intro x hx
    rcases List.mem_append.mp hx with hx | hx
    · exact (hwf d (List.mem_cons_self d t)).2.1 x hx
    · exact ih (fun e he => hwf e (List.mem_cons_of_mem d he)) x hx

theorem luckyOccs_bounds (h : List Draw) (hwf : ∀ d ∈ h, d.WellFormed) :
    ∀ x ∈ luckyOccs h, 1 ≤ x ∧ x ≤ 18 := by
  induction h with
  | nil => intro x hx; simp [luckyOccs] at hx
  | cons d t ih =>
    intro x hx
    rcases List.mem_cons.mp hx with rfl | hx
    · exact ⟨(hwf d (List.mem_cons_self d t)).2.2.1,
        (hwf d (List.mem_cons_self d t)).2.2.2⟩
    · exact ih (fun e he => hwf e (List.mem_cons_of_mem d he)) x hx

theorem five_le_insKeys_length (d : Draw) (t : List Draw) (hwf : d.WellFormed) :
    5 ≤ (insKeys (mainOccs (d :: t))).length := by
  have hsub : d.mains ⊆ insKeys (mainOccs (d :: t)) := by
    intro x hx
    rw [mem_insKeys]
    exact List.mem_append.mpr (Or.inl hx)
  have hsp : List.Subperm d.mains (insKeys (mainOccs (d :: t))) :=
    hwf.1.subperm hsub
  have h5 : d.mains.length = 5 := by simp [Draw.mains]
  calc 5 = d.mains.length := h5.symm
    _ ≤ _ := hsp.length_le

theorem take_take_props (M L : List ℕ) (hperm : List.Perm L (insKeys M))
    (h5 : 5 ≤ (insKeys M).length) (hbd : ∀ x ∈ M, 1 ≤ x ∧ x ≤ 48) :
    ((L.take 10).take 5).length = 5 ∧ ((L.take 10).take 5).Nodup ∧
      ∀ x ∈ (L.take 10).take 5, 1 ≤ x ∧ x ≤ 48 := by
  have hnd : L.Nodup := hperm.nodup_iff.mpr (insKeys_nodup M)
  have hlen : L.length = (insKeys M).length := hperm.length_eq
  refine ⟨?_, ?_, ?_⟩
  · simp only [List.length_take]
    omega
  · exact ((List.take_sublist 5 (L.take 10)).trans (List.take_sublist 10 L)).nodup hnd
  · intro x hx
    have hxL : x ∈ L := List.take_subset _ _ (List.take_subset _ _ hx)
    exact hbd x ((mem_insKeys M x).mp (hperm.subset hxL))

theorem lucky_head_bounds (h : List Draw) (L : List ℕ)
    (hperm : List.Perm L (insKeys (luckyOccs h))) (hne : h ≠ [])
    (hwf : ∀ d ∈ h, d.WellFormed) :
    ∃ lb, L.head? = some lb ∧ 1 ≤ lb ∧ lb ≤ 18 := by
  obtain ⟨d, t, rfl⟩ : ∃ d t, h = d :: t := by
    cases h with
    | nil => exact absurd rfl hne
    | cons d t => exact ⟨d, t, rfl⟩
  have hmem0 : d.luckyBall ∈ insKeys (luckyOccs (d :: t)) := by
    rw [mem_insKeys]
    exact List.mem_cons_self _ _
  cases hL : L with
  | nil =>
    subst hL
    exact absurd (hperm.symm.subset hmem0) (List.not_mem_nil _)
  | cons a tl =>
    refine ⟨a, rfl, ?_⟩
    have haL : a ∈ L := by
      rw [hL]
      exact List.mem_cons_self a tl
    exact luckyOccs_bounds _ hwf a
      ((mem_insKeys _ a).mp (hperm.subset haL))

theorem sortDescCnt_perm (l : List ℕ) :
    List.Perm (sortDescCnt l) (insKeys l) := by
  unfold sortDescCnt
  exact List.perm_insertionSort _ _

theorem sortAscCnt_perm (l : List ℕ) :
    List.Perm (sortAscCnt l) (insKeys l) := by
  unfold sortAscCnt
  exact List.perm_insertionSort _ _

theorem genRec_hot (h : List Draw) (offset : ℕ) :
    genRec h offset "hot" =
      (sortDescCnt (luckyOccs h)).head?.map (fun lb =>
        { mains := ((sortDescCnt (mainOccs h)).take 10).take 5
          lucky := lb }) := rfl

theorem genRec_cold (h : List Draw) (offset : ℕ) :
    genRec h offset "cold" =
      (sortAscCnt (luckyOccs h)).head?.map (fun lb =>
        { mains := ((sortAscCnt (mainOccs h)).take 10).take 5
          lucky := lb }) := rfl

theorem genRec_recent (h : List Draw) (offset : ℕ) :
    genRec h offset "recent_hot" =
      (sortDescCnt (luckyOccs (h.take 50))).head?.map (fun lb =>
        { mains := ((sortDescCnt (mainOccs (h.take 50))).take 10).take 5
          lucky := lb }) := rfl

/-- C2 as amended: for the strategies `hot`, `cold` and `recent_hot` and
every non-empty history of well-formed draws, `generate_recommendations`
returns exactly 5 pairwise-distinct main numbers in 1..48 and one lucky
ball in 1..18.  (The remaining strategies can return fewer than 5 main
numbers, see the counterexample.) -/
theorem c2_strategies_exact_five (h : List Draw) (s : String) (hne : h ≠ [])
    (hwf : ∀ d ∈ h, d.WellFormed)
    (hs : s = "hot" ∨ s = "cold" ∨ s = "recent_hot") :
    ∃ r, genRec h 0 s = some r ∧ r.mains.length = 5 ∧ r.mains.Nodup ∧
      (∀ n ∈ r.mains, 1 ≤ n ∧ n ≤ 48) ∧ 1 ≤ r.lucky ∧ r.lucky ≤ 18 := by
  obtain ⟨d, t, rfl⟩ : ∃ d t, h = d :: t := by
    cases h with
    | nil => exact absurd rfl hne
    | cons d t => exact ⟨d, t, rfl⟩
  rcases hs with rfl | rfl | rfl
  · obtain ⟨lb, hlb, hb1, hb2⟩ := lucky_head_bounds (d :: t)
      (sortDescCnt (luckyOccs (d :: t))) (sortDescCnt_perm _) hne hwf
    have hm := take_take_props (mainOccs (d :: t))
      (sortDescCnt (mainOccs (d :: t))) (sortDescCnt_perm _)
      (five_le_insKeys_length d t (hwf d (List.mem_cons_self d t)))
      (mainOccs_bounds _ hwf)
    refine ⟨{ mains := ((sortDescCnt (mainOccs (d :: t))).take 10).take 5
              lucky := lb }, ?_, hm.1, hm.2.1, hm.2.2, hb1, hb2⟩
    rw [genRec_hot, hlb]
    rfl
  · obtain ⟨lb, hlb, hb1, hb2⟩ := lucky_head_bounds (d :: t)
      (sortAscCnt (luckyOccs (d :: t))) (sortAscCnt_perm _) hne hwf
    have hm := take_take_props (mainOccs (d :: t))
      (sortAscCnt (mainOccs (d :: t))) (sortAscCnt_perm _)
      (five_le_insKeys_length d t (hwf d (List.mem_cons_self d t)))
      (mainOccs_bounds _ hwf)
    refine ⟨{ mains := ((sortAscCnt (mainOccs (d :: t))).take 10).take 5
              lucky := lb }, ?_, hm.1, hm.2.1, hm.2.2, hb1, hb2⟩
    rw [genRec_cold, hlb]
    rfl
  · have hne50 : (d :: t).take 50 ≠ [] := by
      simp [List.take_eq_nil_iff]
    have hwf50 : ∀ e ∈ (d :: t).take 50, e.WellFormed :=
      fun e he => hwf e (List.take_subset _ _ he)
    obtain ⟨d2, t2, heq⟩ := List.exists_cons_of_ne_nil hne50
    obtain ⟨lb, hlb, hb1, hb2⟩ := lucky_head_bounds ((d :: t).take 50)
      (sortDescCnt (luckyOccs ((d :: t).take 50))) (sortDescCnt_perm _)
      hne50 hwf50
    have h5 : 5 ≤ (insKeys (mainOccs ((d :: t).take 50))).length := by
      rw [heq]
      exact five_le_insKeys_length d2 t2
        (hwf50 d2 (heq ▸ List.mem_cons_self d2 t2))
    have hm := take_take_props (mainOccs ((d :: t).take 50))
      (sortDescCnt (mainOccs ((d :: t).take 50))) (sortDescCnt_perm _) h5
      (mainOccs_bounds _ hwf50)
    refine ⟨{ mains := ((sortDescCnt (mainOccs ((d :: t).take 50))).take 10).take 5
              lucky := lb }, ?_, hm.1, hm.2.1, hm.2.2, hb1, hb2⟩
    rw [genRec_recent, hlb]
    rfl

theorem c2_strategies_exact_five_witness :
    ∃ r, genRec hEx 0 "hot" = some r ∧ r.mains.length = 5 ∧ r.mains.Nodup ∧
      (∀ n ∈ r.mains, 1 ≤ n ∧ n ≤ 48) ∧ 1 ≤ r.lucky ∧ r.lucky ≤ 18 :=
  c2_strategies_exact_five hEx "hot" (by decide) (by decide) (Or.inl rfl)
